import Mathlib

/-!
# Verification of the rs-release os-release parser

A shallow embedding of the rs-release library (`src/lib.rs`).  Rust string
slices are modelled as `List Char`; Rust byte indexing (`&s[a..b]`) is
modelled by explicit UTF-8 byte-offset slicing that returns `none` where the
Rust operation panics (non-boundary offset, start past end, out of range).
A per-line parse is therefore an `Option (Except OsReleaseError _)`, with
`none` standing for a panic of the transform.
-/

namespace RsRelease

/-- Number of bytes of the UTF-8 encoding of a character. -/
def utf8Size (c : Char) : Nat :=
  if c.toNat < 0x80 then 1
  else if c.toNat < 0x800 then 2
  else if c.toNat < 0x10000 then 3
  else 4

/-- Total number of bytes of the UTF-8 encoding of a string. -/
def byteLen : List Char → Nat
  | [] => 0
  | c :: cs => utf8Size c + byteLen cs

/-- `takeBytes s n` models the Rust slice `&s[..n]`: the prefix of `s`
occupying exactly `n` bytes, or `none` (a panic) when `n` is not a character
boundary or exceeds the length of `s`. -/
def takeBytes : List Char → Nat → Option (List Char)
  | _, 0 => some []
  | [], _ + 1 => none
  | c :: cs, n + 1 =>
    if utf8Size c ≤ n + 1 then (takeBytes cs (n + 1 - utf8Size c)).map (fun t => c :: t)
    else none

/-- `dropBytes s n` models the Rust slice `&s[n..]`: `s` with its first `n`
bytes removed, or `none` (a panic) when `n` is not a character boundary or
exceeds the length of `s`. -/
def dropBytes : List Char → Nat → Option (List Char)
  | s, 0 => some s
  | [], _ + 1 => none
  | c :: cs, n + 1 =>
    if utf8Size c ≤ n + 1 then dropBytes cs (n + 1 - utf8Size c)
    else none

/-- Rust `char::is_whitespace`: the Unicode `White_Space` property. -/
def rustIsWhitespace (c : Char) : Bool :=
  let n := c.toNat
  (decide (9 ≤ n) && decide (n ≤ 13)) || decide (n = 0x20) ||
  decide (n = 0x85) || decide (n = 0xA0) || decide (n = 0x1680) ||
  (decide (0x2000 ≤ n) && decide (n ≤ 0x200A)) || decide (n = 0x2028) ||
  decide (n = 0x2029) || decide (n = 0x202F) || decide (n = 0x205F) ||
  decide (n = 0x3000)

/-- Rust `str::trim_left` (alias of `trim_start`): strip leading whitespace. -/
def trim_left (s : List Char) : List Char :=
  s.dropWhile rustIsWhitespace

/-- Rust `str::trim`: strip leading and trailing whitespace. -/
def trim (s : List Char) : List Char :=
  ((s.dropWhile rustIsWhitespace).reverse.dropWhile rustIsWhitespace).reverse

/-- The `QUOTES` constant of `lib.rs` (both quote strings are single
characters, so `starts_with`/`ends_with` against them are head/last tests). -/
def QUOTES : List Char := ['"', '\'']

/-- The condition of `trim_quotes`:
`QUOTES.iter().any(|q| s.starts_with(q) && s.ends_with(q))`. -/
def isQuoted (s : List Char) : Bool :=
  QUOTES.any (fun q => s.head? == some q && s.getLast? == some q)

/-- `trim_quotes` of `lib.rs`.  The Rust body returns `&s[1..s.len() - 1]`
when the quote test holds; that slice panics (here: `none`) when
`1 > s.len() - 1`, i.e. when `s` is a single quote character. -/
def trim_quotes (s : List Char) : Option (List Char) :=
  if isQuoted s then
    if 1 ≤ byteLen s - 1 then
      (takeBytes s (byteLen s - 1)).bind (fun t => dropBytes t 1)
    else none
  else some s

/-- An opaque stand-in for `std::io::Error`: only its identity matters. -/
structure IoError where
  code : Nat
deriving DecidableEq

/-- The `OsReleaseError` enum of `lib.rs`. -/
inductive OsReleaseError where
  | Io : IoError → OsReleaseError
  | NoFile : OsReleaseError
  | ParseError : OsReleaseError
deriving DecidableEq

/-- The hand-written `PartialEq` impl for `OsReleaseError`: two errors are
equal exactly when their constructors match; the `Io` payload is ignored. -/
def OsReleaseError.eq : OsReleaseError → OsReleaseError → Bool
  | .Io _, .Io _ => true
  | .NoFile, .NoFile => true
  | .ParseError, .ParseError => true
  | _, _ => false

/-- The `COMMON_KEYS` constant of `lib.rs`. -/
def COMMON_KEYS : List (List Char) :=
  ["ANSI_COLOR".toList, "BUG_REPORT_URL".toList, "BUILD_ID".toList,
   "CPE_NAME".toList, "HOME_URL".toList, "ID".toList, "ID_LIKE".toList,
   "NAME".toList, "PRETTY_NAME".toList, "PRIVACY_POLICY_URL".toList,
   "SUPPORT_URL".toList, "VARIANT".toList, "VARIANT_ID".toList,
   "VERSION".toList, "VERSION_CODENAME".toList, "VERSION_ID".toList]

/-- The key lookup of `extract_variable_and_value`:
`COMMON_KEYS.iter().find(|&k| *k == var)`, yielding the canonical shared
string on a hit and `var` itself otherwise.  Content-wise this is the
identity (see the canonicalization theorem). -/
def canonKey (var : List Char) : List Char :=
  match COMMON_KEYS.find? (fun k => k == var) with
  | some key => key
  | none => var

/-- A successful per-line result: `(key, value)`. -/
abbrev Entry := List Char × List Char

/-- `extract_variable_and_value` of `lib.rs`.  Faithful to the source:
the position of the first `=` is computed over the character iterator
(`s.chars().position(|c| c == '=')`) but then used as a *byte* index in the
slices `&s[..equal]` and `&s[equal + 1..]`; those slices, and the later
`trim_quotes`, can panic (`none`). -/
def extract_variable_and_value (s : List Char) :
    Option (Except OsReleaseError Entry) :=
  match s.findIdx? (fun c => c == '=') with
  | some equal =>
    (takeBytes s equal).bind (fun var0 =>
    (dropBytes s (equal + 1)).bind (fun val0 =>
    (trim_quotes (trim val0)).map (fun val =>
    Except.ok (canonKey (trim var0), val))))
  | none => some (Except.error OsReleaseError.ParseError)

/-- Variant of `extract_variable_and_value` with the canonical-key lookup
removed: the key is always `var` verbatim.  Used to state that the lookup is
unobservable in output content. -/
def extract_no_canon (s : List Char) :
    Option (Except OsReleaseError Entry) :=
  match s.findIdx? (fun c => c == '=') with
  | some equal =>
    (takeBytes s equal).bind (fun var0 =>
    (dropBytes s (equal + 1)).bind (fun val0 =>
    (trim_quotes (trim val0)).map (fun val =>
    Except.ok (trim var0, val))))
  | none => some (Except.error OsReleaseError.ParseError)

/-- One item of the input line sequence of `parse_os_release_lines`:
`std::io::Result<Cow<str>>`. -/
abbrev Line := Except IoError (List Char)

/-- The filter closure of `parse_os_release_lines`: keep a successfully read
line iff after `trim_left` it is non-empty and does not start with `#`;
always keep a read failure. -/
def keepLine : Line → Bool
  | .ok line =>
    let trimmed_line := trim_left line
    !trimmed_line.isEmpty && !(trimmed_line.head? == some '#')
  | .error _ => true

/-- The map closure of `parse_os_release_lines`: parse a successfully read
line, wrap a read failure as `OsReleaseError::Io`.  `none` is a panic of
`extract_variable_and_value`. -/
def lineResult : Line → Option (Except OsReleaseError Entry)
  | .ok line => extract_variable_and_value line
  | .error error => some (Except.error (OsReleaseError.Io error))

/-- `parse_os_release_lines` of `lib.rs` on a finite line sequence: the
per-element denotation of `lines.filter(..).map(..)` (one outcome per
surviving line, `none` marking a panic of that element's transform). -/
def parse_os_release_lines (lines : List Line) :
    List (Option (Except OsReleaseError Entry)) :=
  (lines.filter keepLine).map lineResult

/-- Operationally draining a Rust iterator whose elements may panic: the
values produced before the first panic, paired with whether a panic cut the
iteration short. -/
def iterCollect {α : Type} : List (Option α) → List α × Bool
  | [] => ([], false)
  | none :: _ => ([], true)
  | some a :: rest =>
    let r := iterCollect rest
    (a :: r.1, r.2)

/-- The `PATHS` constant of `lib.rs`. -/
def PATHS : List (List Char) := ["/etc/os-release".toList, "/usr/lib/os-release".toList]

/-- An abstract file system: opening a path either fails with an I/O error or
yields the file's line sequence (each line itself a potential read failure). -/
abbrev FileSystem := List Char → Except IoError (List Line)

/-- `parse_os_release` of `lib.rs` over an abstract file system: `File::open`
failure is returned at once as `OsReleaseError::Io` (via the `?` and the
`From` impl); on success the file's lines are fed to
`parse_os_release_lines`. -/
def parse_os_release (fs : FileSystem) (path : List Char) :
    Except OsReleaseError (List (Option (Except OsReleaseError Entry))) :=
  match fs path with
  | .error e => Except.error (OsReleaseError.Io e)
  | .ok lines => Except.ok (parse_os_release_lines lines)

/-- The loop of `get_os_release` over a remaining path list. -/
def get_os_release_loop (fs : FileSystem) : List (List Char) →
    Except OsReleaseError (List (Option (Except OsReleaseError Entry)))
  | [] => Except.error OsReleaseError.NoFile
  | p :: ps =>
    match parse_os_release fs p with
    | .ok os_release => Except.ok os_release
    | .error _ => get_os_release_loop fs ps

/-- `get_os_release` of `lib.rs`: try `PATHS` in order, return the first
successfully opened file's parse, else `OsReleaseError::NoFile`. -/
def get_os_release (fs : FileSystem) :
    Except OsReleaseError (List (Option (Except OsReleaseError Entry))) :=
  get_os_release_loop fs PATHS

/-- A concrete file system on which every path opens as an empty file. -/
def fsEmpty : FileSystem := fun _ => Except.ok []

/-! ## Helper lemmas about the byte-level model -/

lemma utf8Size_pos (c : Char) : 1 ≤ utf8Size c := by
  unfold utf8Size
  split
  · omega
  · split
    · omega
    · split <;> omega

lemma utf8Size_of_ascii (c : Char) (h : c.toNat < 128) : utf8Size c = 1 := by
  unfold utf8Size
  rw [if_pos h]

lemma byteLen_append (xs ys : List Char) :
    byteLen (xs ++ ys) = byteLen xs + byteLen ys := by
  induction xs with
  | nil => simp [byteLen]
  | cons c cs ih => simp [byteLen, ih, Nat.add_assoc]

lemma length_le_byteLen (s : List Char) : s.length ≤ byteLen s := by
  induction s with
  | nil => simp [byteLen]
  | cons c cs ih =>
    have := utf8Size_pos c
    simp only [List.length_cons, byteLen]
    omega

lemma byteLen_of_ascii (s : List Char) (h : ∀ c ∈ s, c.toNat < 128) :
    byteLen s = s.length := by
  induction s with
  | nil => simp [byteLen]
  | cons c cs ih =>
    simp only [byteLen, List.length_cons]
    rw [utf8Size_of_ascii c (h c (by simp)), ih (fun x hx => h x (by simp [hx]))]
    omega

lemma takeBytes_zero (s : List Char) : takeBytes s 0 = some [] := by
  cases s <;> rfl

lemma dropBytes_zero (s : List Char) : dropBytes s 0 = some s := by
  cases s <;> rfl

lemma takeBytes_append (xs ys : List Char) :
    takeBytes (xs ++ ys) (byteLen xs) = some xs := by
  induction xs with
  | nil => simpa [byteLen] using takeBytes_zero ys
  | cons c cs ih =>
    have hpos := utf8Size_pos c
    have hlen : byteLen (c :: cs) = (utf8Size c + byteLen cs - 1) + 1 := by
      simp only [byteLen]; omega
    rw [List.cons_append, hlen]
    have hle : utf8Size c ≤ (utf8Size c + byteLen cs - 1) + 1 := by omega
    have hsub : (utf8Size c + byteLen cs - 1) + 1 - utf8Size c = byteLen cs := by omega
    simp only [takeBytes, hle, if_pos, hsub, ih]
    rfl

lemma dropBytes_append (xs ys : List Char) :
    dropBytes (xs ++ ys) (byteLen xs) = some ys := by
  induction xs with
  | nil => simpa [byteLen] using dropBytes_zero ys
  | cons c cs ih =>
    have hpos := utf8Size_pos c
    have hlen : byteLen (c :: cs) = (utf8Size c + byteLen cs - 1) + 1 := by
      simp only [byteLen]; omega
    rw [List.cons_append, hlen]
    have hle : utf8Size c ≤ (utf8Size c + byteLen cs - 1) + 1 := by omega
    have hsub : (utf8Size c + byteLen cs - 1) + 1 - utf8Size c = byteLen cs := by omega
    simp only [dropBytes, hle, if_pos, hsub, ih]

lemma dropBytes_cons_one (c : Char) (cs : List Char) (h : utf8Size c = 1) :
    dropBytes (c :: cs) 1 = some cs := by
  show dropBytes (c :: cs) (0 + 1) = some cs
  simp only [dropBytes, h, Nat.zero_add, Nat.le_refl, if_pos, Nat.sub_self]

lemma isQuoted_iff (s : List Char) :
    isQuoted s = true ↔
      ((s.head? = some '"' ∧ s.getLast? = some '"') ∨
       (s.head? = some '\'' ∧ s.getLast? = some '\'')) := by
  simp [isQuoted, QUOTES]

lemma slice_interior (s : List Char) (q : Char) (hsz : utf8Size q = 1)
    (h1 : s.head? = some q) (h2 : s.getLast? = some q) (hlen : 2 ≤ s.length) :
    1 ≤ byteLen s - 1 ∧
    (takeBytes s (byteLen s - 1)).bind (fun t => dropBytes t 1) =
      some s.dropLast.tail := by
  obtain ⟨ys, rfl⟩ := List.getLast?_eq_some_iff.mp h2
  have hys : ys ≠ [] := by
    intro hnil
    subst hnil
    simp at hlen
  obtain ⟨c, ys', rfl⟩ : ∃ c ys', ys = c :: ys' := by
    cases ys with
    | nil => exact absurd rfl hys
    | cons c t => exact ⟨c, t, rfl⟩
  have hc : c = q := by simpa using h1
  subst hc
  have hbl : byteLen ((c :: ys') ++ [c]) = byteLen (c :: ys') + 1 := by
    rw [byteLen_append]
    simp [byteLen, hsz]
  have hsub : byteLen ((c :: ys') ++ [c]) - 1 = byteLen (c :: ys') := by omega
  have hpos := utf8Size_pos c
  have hge1 : 1 ≤ byteLen (c :: ys') := by
    have := length_le_byteLen (c :: ys')
    simp at this
    omega
  refine ⟨by omega, ?_⟩
  rw [hsub, takeBytes_append]
  have hdrop : dropBytes (c :: ys') 1 = some ys' := dropBytes_cons_one c ys' hsz
  have hdl : ((c :: ys') ++ [c]).dropLast = c :: ys' := List.dropLast_concat
  rw [hdl]
  simp [hdrop]

lemma trim_quotes_not_quoted (s : List Char) (h : isQuoted s = false) :
    trim_quotes s = some s := by
  simp [trim_quotes, h]

lemma trim_quotes_of_isQuoted (s : List Char) (h : isQuoted s = true)
    (hlen : 2 ≤ s.length) : trim_quotes s = some s.dropLast.tail := by
  rcases (isQuoted_iff s).mp h with ⟨h1, h2⟩ | ⟨h1, h2⟩ <;>
  · obtain ⟨hge, heq⟩ := slice_interior s _ (by decide) h1 h2 hlen
    simp [trim_quotes, h, hge, heq]

lemma trim_quotes_isSome (t : List Char) (h1 : t ≠ ['"']) (h2 : t ≠ ['\'']) :
    ∃ v, trim_quotes t = some v := by
  cases hq : isQuoted t with
  | false => exact ⟨t, trim_quotes_not_quoted t hq⟩
  | true =>
    rcases Nat.lt_or_ge t.length 2 with hlt | hge
    · exfalso
      rcases (isQuoted_iff t).mp hq with ⟨ha, _⟩ | ⟨ha, _⟩
      · obtain ⟨ys, rfl⟩ := List.head?_eq_some_iff.mp ha
        have hnil : ys = [] := by
          cases ys with
          | nil => rfl
          | cons a l =>
            exfalso
            simp at hlt
            omega
        subst hnil
        exact h1 rfl
      · obtain ⟨ys, rfl⟩ := List.head?_eq_some_iff.mp ha
        have hnil : ys = [] := by
          cases ys with
          | nil => rfl
          | cons a l =>
            exfalso
            simp at hlt
            omega
        subst hnil
        exact h2 rfl
    · exact ⟨t.dropLast.tail, trim_quotes_of_isQuoted t hq hge⟩

lemma canonKey_id (var : List Char) : canonKey var = var := by
  unfold canonKey
  cases hfind : COMMON_KEYS.find? (fun k => k == var) with
  | none => rfl
  | some key =>
    have h := List.find?_some hfind
    simpa using h

lemma findIdx?_append_first (p : Char → Bool) (x : Char) (hx : p x = true) :
    ∀ (pre rest : List Char) (i : Nat), (∀ c ∈ pre, p c = false) →
      List.findIdx? p (pre ++ x :: rest) i = some (i + pre.length) := by
  intro pre
  induction pre with
  | nil =>
    intro rest i _
    simp [List.findIdx?_cons, hx]
  | cons c cs ih =>
    intro rest i hall
    have hc : p c = false := hall c (by simp)
    simp only [List.cons_append, List.findIdx?_cons, hc, Bool.false_eq_true,
      if_false, List.length_cons]
    rw [ih rest (i + 1) (fun d hd => hall d (by simp [hd]))]
    simp only [Option.some.injEq]
    omega

lemma ws_not_eq_char (c : Char) (h : rustIsWhitespace c = true) :
    (c == '=') = false := by
  rcases Bool.eq_false_or_eq_true (c == '=') with ht | hf
  · have hc : c = '=' := by simpa using ht
    subst hc
    exact absurd h (by decide)
  · exact hf

lemma trim_all_ws (s : List Char) (h : ∀ c ∈ s, rustIsWhitespace c = true) :
    trim s = [] := by
  unfold trim
  rw [List.dropWhile_eq_nil_iff.mpr h]
  simp

lemma iterCollect_map_total {α β : Type} (f : β → Option α) :
    ∀ xs : List β, (∀ x ∈ xs, (f x).isSome) →
      (iterCollect (xs.map f)).2 = false ∧
      ((iterCollect (xs.map f)).1).length = xs.length ∧
      ∀ (j : Nat) (x : β) (r : α), xs[j]? = some x → f x = some r →
        ((iterCollect (xs.map f)).1)[j]? = some r := by
  intro xs
  induction xs with
  | nil =>
    intro _
    refine ⟨rfl, rfl, ?_⟩
    intro j x r hj _
    simp at hj
  | cons x xs ih =>
    intro h
    have hx : (f x).isSome := h x (by simp)
    obtain ⟨a, ha⟩ := Option.isSome_iff_exists.mp hx
    obtain ⟨hp, hl, hi⟩ := ih (fun y hy => h y (by simp [hy]))
    simp only [List.map_cons, ha, iterCollect]
    refine ⟨hp, by simpa using hl, ?_⟩
    intro j y r hj hy
    cases j with
    | zero =>
      have hxy : x = y := by simpa using hj
      subst hxy
      rw [ha] at hy
      simpa using hy
    | succ n =>
      have hj' : xs[n]? = some y := by simpa using hj
      simpa using hi n y r hj' hy

lemma keepLine_ok_false_iff (l : List Char) :
    keepLine (Except.ok l) = false ↔
      (trim_left l = [] ∨ (trim_left l).head? = some '#') := by
  simp [keepLine, List.isEmpty_iff]
  tauto

/-! ## Claim theorems -/

/-- Claim C1: the per-line transform is claimed total (success or one of the
three error kinds, never a panic), in particular on a line whose trimmed
value is a single quote character.  The code violates this: on `KEY="` the
value trims to `"`, the quote test of `trim_quotes` passes, and the slice
`&s[1..0]` panics.  This theorem evaluates the embedded transform at that
failing input and shows it aborts (`none`) instead of producing a result. -/
theorem transform_panics_on_lone_quote_value :
    extract_variable_and_value ['K', 'E', 'Y', '=', '"'] = none := by
  rfl

/-- Claim C2: the split is claimed to happen at the first `=`, with the key
the trimmed text strictly before it and the value the trimmed text strictly
after it, including on lines with non-ASCII characters.  The code violates
this: the *character* position of the first `=` is used as a *byte* index,
so on `éa=x` (where `é` occupies two bytes) the code returns key `é` and
value `=x` instead of key `éa` and value `x`.  This theorem evaluates the
embedded transform at that failing input. -/
theorem split_at_char_position_not_byte_index :
    extract_variable_and_value ['é', 'a', '=', 'x'] =
      some (Except.ok (['é'], ['=', 'x'])) := by
  rfl

/-- Counterexample to claim C3 as stated: on the one-character value `"`,
which starts and ends with the same quote character, the code does not
remove one leading and one trailing character — it panics (the slice
`&s[1..0]`), modelled as `none`. -/
theorem trim_quotes_lone_quote_aborts : trim_quotes ['"'] = none := by
  rfl

/-- Claim C3 (amended: the quoted value must have at least two characters):
if `val` has length ≥ 2 and starts and ends with the same quote character
(`"` or `'`, checked independently per quote type), exactly one leading and
one trailing character are removed and the rest is returned unchanged;
when `val` does not start and end with the same quote character it is
returned completely untouched (not an error). -/
theorem trim_quotes_strips_matching_pair (s : List Char) :
    (((s.head? = some '"' ∧ s.getLast? = some '"') ∨
      (s.head? = some '\'' ∧ s.getLast? = some '\'')) → 2 ≤ s.length →
        trim_quotes s = some s.dropLast.tail) ∧
    (¬((s.head? = some '"' ∧ s.getLast? = some '"') ∨
       (s.head? = some '\'' ∧ s.getLast? = some '\'')) →
        trim_quotes s = some s) := by
  constructor
  · intro hq hlen
    exact trim_quotes_of_isQuoted s ((isQuoted_iff s).mpr hq) hlen
  · intro hq
    apply trim_quotes_not_quoted
    cases hb : isQuoted s with
    | false => rfl
    | true => exact absurd ((isQuoted_iff s).mp hb) hq

/-- Witness for the amended claim C3 at the concrete value `"ab"`. -/
theorem trim_quotes_strips_matching_pair_witness :
    trim_quotes ['"', 'a', 'b', '"'] = some ['a', 'b'] :=
  (trim_quotes_strips_matching_pair ['"', 'a', 'b', '"']).1
    (Or.inl ⟨by decide, by decide⟩) (by decide)

/-- Claim C4: a successfully read line is skipped (no result emitted) iff
after stripping leading whitespace it is empty or starts with `#`; a read
failure is never skipped and always becomes an `Io` error result. -/
theorem skip_iff_blank_or_comment :
    ∀ (l : List Char) (e : IoError),
      (parse_os_release_lines [Except.ok l] = [] ↔
        (trim_left l = [] ∨ (trim_left l).head? = some '#')) ∧
      parse_os_release_lines [Except.error e] =
        [some (Except.error (OsReleaseError.Io e))] := by
  intro l e
  refine ⟨?_, rfl⟩
  rw [← keepLine_ok_false_iff]
  unfold parse_os_release_lines
  cases hk : keepLine (Except.ok l) with
  | false => simp [List.filter_cons, hk]
  | true => simp [List.filter_cons, hk]

/-- Witness for claim C4: the comment line `#c` is skipped entirely. -/
theorem skip_iff_blank_or_comment_witness :
    parse_os_release_lines [Except.ok ['#', 'c']] = [] :=
  (skip_iff_blank_or_comment ['#', 'c'] ⟨0⟩).1.mpr (Or.inr (by decide))

/-- Counterexample to claim C5 as stated: both lines `A="` and `B=x` survive
the filter, yet draining the iterator yields zero results, because the first
line's transform panics and aborts the whole iteration — so the output does
not contain one result per surviving line. -/
theorem one_result_per_line_cex :
    ((iterCollect (parse_os_release_lines
        [Except.ok ['A', '=', '"'], Except.ok ['B', '=', 'x']])).1).length ≠
      ([Except.ok ['A', '=', '"'],
        Except.ok ['B', '=', 'x']].filter keepLine).length := by
  decide

/-- Claim C5 (amended: provided no surviving line makes the per-line
transform panic): draining the parser yields no abort, exactly one result
per surviving (non-blank, non-comment) line, in the same relative order —
the `j`-th result is the transform of the `j`-th surviving line — and a
per-line failure (malformed line or mid-stream read error) does not
terminate the sequence, since those produce `some` results. -/
theorem one_result_per_surviving_line (lines : List Line)
    (h : ∀ item ∈ lines.filter keepLine, (lineResult item).isSome) :
    (iterCollect (parse_os_release_lines lines)).2 = false ∧
    ((iterCollect (parse_os_release_lines lines)).1).length =
      (lines.filter keepLine).length ∧
    ∀ (j : Nat) (item : Line) (res : Except OsReleaseError Entry),
      (lines.filter keepLine)[j]? = some item → lineResult item = some res →
      ((iterCollect (parse_os_release_lines lines)).1)[j]? = some res :=
  iterCollect_map_total lineResult (lines.filter keepLine) h

/-- Witness for the amended claim C5 on a sequence holding a good line, a
mid-stream read error, a malformed line and a comment: three results for
three surviving lines. -/
theorem one_result_per_surviving_line_witness :
    ((iterCollect (parse_os_release_lines
        [Except.ok ['A', '=', '1'], Except.error ⟨3⟩, Except.ok ['n', 'o'],
         Except.ok ['#', 'c']])).1).length =
      ([Except.ok ['A', '=', '1'], Except.error ⟨3⟩, Except.ok ['n', 'o'],
        Except.ok ['#', 'c']].filter keepLine).length :=
  (one_result_per_surviving_line _ (by decide)).2.1

/-- Claim C6: a successfully read surviving line yields the "malformed"
error (`ParseError`) iff it contains no `=`; a line containing at least one
`=` never yields any error result from the transform. -/
theorem malformed_iff_no_separator :
    ∀ l : List Char,
      (extract_variable_and_value l =
          some (Except.error OsReleaseError.ParseError) ↔ '=' ∉ l) ∧
      ('=' ∈ l → ∀ e : OsReleaseError,
        extract_variable_and_value l ≠ some (Except.error e)) := by
  intro l
  cases hfind : l.findIdx? (fun c => c == '=') with
  | none =>
    have hno : '=' ∉ l := by
      intro hmem
      have := List.findIdx?_eq_none_iff.mp hfind '=' hmem
      simp at this
    have hres : extract_variable_and_value l =
        some (Except.error OsReleaseError.ParseError) := by
      unfold extract_variable_and_value
      rw [hfind]
    exact ⟨⟨fun _ => hno, fun _ => hres⟩, fun hmem => absurd hmem hno⟩
  | some k =>
    have hmem : '=' ∈ l := by
      by_contra hno
      have hnone : l.findIdx? (fun c => c == '=') = none :=
        List.findIdx?_eq_none_iff.mpr (fun x hx =>
          beq_eq_false_iff_ne.mpr (fun heq => hno (heq ▸ hx)))
      rw [hnone] at hfind
      exact Option.noConfusion hfind
    have hno_err : ∀ e : OsReleaseError,
        extract_variable_and_value l ≠ some (Except.error e) := by
      intro e
      unfold extract_variable_and_value
      rw [hfind]
      cases htake : takeBytes l k with
      | none => simp [htake]
      | some var0 =>
        cases hdrop : dropBytes l (k + 1) with
        | none => simp [htake, hdrop]
        | some val0 =>
          cases htq : trim_quotes (trim val0) with
          | none => simp [htake, hdrop, htq]
          | some v => simp [htake, hdrop, htq]
    exact ⟨⟨fun habs => absurd habs (hno_err _), fun hnot => absurd hmem hnot⟩,
      fun _ => hno_err⟩

/-- Witness for claim C6: the separator-free line `SOMETHING` of the test
suite yields exactly the "malformed" error. -/
theorem malformed_iff_no_separator_witness :
    extract_variable_and_value ("SOMETHING".toList) =
      some (Except.error OsReleaseError.ParseError) :=
  (malformed_iff_no_separator ("SOMETHING".toList)).1.mpr (by decide)

/-- Claim C7: the path entry point fails with a single discrete `Io` error
exactly when opening fails (otherwise it returns the parsed sequence); the
standard-locations entry point tries `/etc/os-release` then
`/usr/lib/os-release`, returns the parse of the first path that opens, and
fails with `NoFile` exactly when neither opens — the upfront failure is
carried in the outer `Except`, never folded into the result sequence. -/
theorem upfront_failures_discrete (fs : FileSystem) :
    (∀ (p : List Char) (e : IoError), fs p = Except.error e →
      parse_os_release fs p = Except.error (OsReleaseError.Io e)) ∧
    (∀ (p : List Char) (ls : List Line), fs p = Except.ok ls →
      parse_os_release fs p = Except.ok (parse_os_release_lines ls)) ∧
    (∀ ls : List Line, fs ("/etc/os-release".toList) = Except.ok ls →
      get_os_release fs = Except.ok (parse_os_release_lines ls)) ∧
    (∀ (e : IoError) (ls : List Line),
      fs ("/etc/os-release".toList) = Except.error e →
      fs ("/usr/lib/os-release".toList) = Except.ok ls →
      get_os_release fs = Except.ok (parse_os_release_lines ls)) ∧
    (∀ e1 e2 : IoError,
      fs ("/etc/os-release".toList) = Except.error e1 →
      fs ("/usr/lib/os-release".toList) = Except.error e2 →
      get_os_release fs = Except.error OsReleaseError.NoFile) := by
  refine ⟨?_, ?_, ?_, ?_, ?_⟩
  · intro p e h
    unfold parse_os_release
    rw [h]
  · intro p ls h
    unfold parse_os_release
    rw [h]
  · intro ls h
    show get_os_release_loop fs PATHS = _
    simp only [PATHS, get_os_release_loop, parse_os_release, h]
  · intro e ls h1 h2
    show get_os_release_loop fs PATHS = _
    simp only [PATHS, get_os_release_loop, parse_os_release, h1, h2]
  · intro e1 e2 h1 h2
    show get_os_release_loop fs PATHS = _
    simp only [PATHS, get_os_release_loop, parse_os_release, h1, h2]

/-- Witness for claim C7: on a file system where every path opens as an
empty file, the standard-locations entry point returns the parse of the
primary path. -/
theorem upfront_failures_discrete_witness :
    get_os_release fsEmpty = Except.ok (parse_os_release_lines []) :=
  (upfront_failures_discrete fsEmpty).2.2.1 [] rfl

/-- Claim C8: the canonical-key lookup is unobservable in output content —
the parser with the `COMMON_KEYS` lookup and the parser without it produce
structurally equal results on every input line, because a lookup hit is
character-for-character equal to the trimmed key it replaces. -/
theorem canonicalization_unobservable :
    ∀ s : List Char, extract_variable_and_value s = extract_no_canon s := by
  intro s
  unfold extract_variable_and_value extract_no_canon
  simp only [canonKey_id]

/-- Claim C9: the hand-written equality on `OsReleaseError` compares only
the constructor: any two `Io` errors are equal regardless of their
underlying causes, and errors of different kinds are always unequal. -/
theorem error_eq_ignores_payload :
    (∀ e1 e2 : IoError,
      OsReleaseError.eq (OsReleaseError.Io e1) (OsReleaseError.Io e2) = true) ∧
    OsReleaseError.eq OsReleaseError.NoFile OsReleaseError.NoFile = true ∧
    OsReleaseError.eq OsReleaseError.ParseError OsReleaseError.ParseError = true ∧
    (∀ e : IoError,
      OsReleaseError.eq (OsReleaseError.Io e) OsReleaseError.NoFile = false ∧
      OsReleaseError.eq OsReleaseError.NoFile (OsReleaseError.Io e) = false ∧
      OsReleaseError.eq (OsReleaseError.Io e) OsReleaseError.ParseError = false ∧
      OsReleaseError.eq OsReleaseError.ParseError (OsReleaseError.Io e) = false) ∧
    OsReleaseError.eq OsReleaseError.NoFile OsReleaseError.ParseError = false ∧
    OsReleaseError.eq OsReleaseError.ParseError OsReleaseError.NoFile = false :=
  ⟨fun _ _ => rfl, rfl, rfl, fun _ => ⟨rfl, rfl, rfl, rfl⟩, rfl, rfl⟩

/-- Counterexample to claim C10 as stated: the line `="` has its first `=`
preceded by nothing (vacuously only whitespace), yet it does not produce a
success result — the trimmed value is a lone `"` and the transform panics
in `trim_quotes` (modelled as `none`). -/
theorem equals_lone_quote_aborts :
    extract_variable_and_value ['=', '"'] = none := by
  rfl

/-- Claim C10 (amended: the whitespace before the first `=` must be ASCII
and the trimmed value must not be a lone quote character): a surviving line
whose first `=` is preceded only by such whitespace produces a success
result whose key is the empty string and whose value is the remainder after
trimming and quote stripping. -/
theorem whitespace_before_separator_empty_key (pre rest : List Char)
    (hw : ∀ c ∈ pre, rustIsWhitespace c = true ∧ c.toNat < 128)
    (h1 : trim rest ≠ ['"']) (h2 : trim rest ≠ ['\'']) :
    ∃ v, trim_quotes (trim rest) = some v ∧
      extract_variable_and_value (pre ++ '=' :: rest) =
        some (Except.ok (([] : List Char), v)) := by
  obtain ⟨v, hv⟩ := trim_quotes_isSome (trim rest) h1 h2
  refine ⟨v, hv, ?_⟩
  have hfind : (pre ++ '=' :: rest).findIdx? (fun c => c == '=') =
      some pre.length := by
    have := findIdx?_append_first (fun c => c == '=') '=' (by decide) pre rest 0
      (fun c hc => ws_not_eq_char c (hw c hc).1)
    simpa using this
  have hblpre : byteLen pre = pre.length :=
    byteLen_of_ascii pre (fun c hc => (hw c hc).2)
  have htake : takeBytes (pre ++ '=' :: rest) pre.length = some pre := by
    rw [← hblpre]
    exact takeBytes_append pre ('=' :: rest)
  have hdrop : dropBytes (pre ++ '=' :: rest) (pre.length + 1) = some rest := by
    have hbl2 : byteLen (pre ++ ['=']) = pre.length + 1 := by
      rw [byteLen_append, hblpre]
      simp [byteLen, utf8Size]
    have hd := dropBytes_append (pre ++ ['=']) rest
    rw [hbl2] at hd
    simpa using hd
  have htrim : trim pre = [] := trim_all_ws pre (fun c hc => (hw c hc).1)
  unfold extract_variable_and_value
  rw [hfind]
  simp [htake, hdrop, htrim, canonKey_id, hv]

/-- Witness for the amended claim C10 at the concrete line ` =v`. -/
theorem whitespace_before_separator_empty_key_witness :
    ∃ v, trim_quotes (trim ['v']) = some v ∧
      extract_variable_and_value ([' '] ++ '=' :: ['v']) =
        some (Except.ok (([] : List Char), v)) :=
  whitespace_before_separator_empty_key [' '] ['v'] (by decide) (by decide)
    (by decide)

end RsRelease
